import Mathlib

/-!
Verification of the MonkMinal typing-trainer core (`src/game.rs`, `src/config.rs`,
`src/data_loader.rs`) against its design document.

Embedding conventions:
* Rust `String` values are modelled as `List Char`; `len()` is the character count
  (the source strings of interest are ASCII, where byte length and char count agree).
* `f64` arithmetic in the metrics calculator is modelled over `ℚ` with the same
  expression structure; the literal `0.01` becomes `1/100`.
* `usize` counters are `ℕ`; Rust `saturating_sub` is `ℕ` truncated subtraction.
* The thread-local random generator is modelled by an extra `ℕ` parameter `r`:
  `SliceRandom::choose` picks index `r % length`, and `SliceRandom::choose_multiple`
  (which returns `min amount len` elements at pairwise distinct indices) is modelled
  as a prefix of the list rotated by `r`.
* `Instant`-valued fields (`start_time`, `final_elapsed_time_seconds`) are elided
  from the session state: no claim about the keystroke state machine mentions them.
-/

namespace MonkMinal

/-- `GameType` from `config.rs`: the three game modes. -/
inductive GameType
  | Time
  | Words
  | Quote
deriving DecidableEq, Repr

/-- `Difficulty` from `config.rs`. -/
inductive Difficulty
  | Easy
  | Medium
  | Hard
deriving DecidableEq, Repr

/-- `GameConfig` from `config.rs`. -/
structure GameConfig where
  game_type : GameType
  time_seconds : Option ℕ
  word_count : Option ℕ
  difficulty : Difficulty
deriving DecidableEq, Repr

/-- `Quote` from `data_loader.rs`: a quotation text and its source. -/
structure Quote where
  text : List Char
  source : List Char
deriving DecidableEq, Repr

/-- `STANDARD_WORD_LENGTH` from `game.rs`. -/
def STANDARD_WORD_LENGTH : ℚ := 5

/-- `calculate_wpm` from `game.rs` lines 89-101, over `ℚ`.
Returns `(gross_wpm, net_wpm, accuracy)`.  `errors_count` uses truncated
subtraction, mirroring `usize::saturating_sub`. -/
def calculate_wpm (correct_chars total_chars_typed : ℕ) (time_seconds : ℚ) :
    ℚ × ℚ × ℚ :=
  if time_seconds < 1/100 ∨ total_chars_typed = 0 then
    let accuracy : ℚ :=
      if total_chars_typed = 0 then 100
      else (correct_chars : ℚ) / (total_chars_typed : ℚ) * 100
    (0, 0, accuracy)
  else
    let time_in_minutes := time_seconds / 60
    let gross_wpm := ((total_chars_typed : ℚ) / STANDARD_WORD_LENGTH) / time_in_minutes
    let errors_count := total_chars_typed - correct_chars
    let error_penalty_wpm := (errors_count : ℚ) / time_in_minutes
    let net_wpm := max (gross_wpm - error_penalty_wpm) 0
    let accuracy := (correct_chars : ℚ) / (total_chars_typed : ℚ) * 100
    (gross_wpm, net_wpm, accuracy)

/-- The design document's reference definition of the metrics calculator (§4.3),
written from the spec's own words: `errorCount = typed − correct` is ordinary
rational subtraction and `net = max(0, gross − penalty)`. -/
def metrics_spec (correct_char_count typed_char_count : ℕ) (elapsed_seconds : ℚ) :
    ℚ × ℚ × ℚ :=
  if elapsed_seconds < 1/100 ∨ typed_char_count = 0 then
    let accuracy : ℚ :=
      if typed_char_count = 0 then 100
      else (correct_char_count : ℚ) / (typed_char_count : ℚ) * 100
    (0, 0, accuracy)
  else
    let minutes := elapsed_seconds / 60
    let gross := ((typed_char_count : ℚ) / 5) / minutes
    let errorCount : ℚ := (typed_char_count : ℚ) - (correct_char_count : ℚ)
    let penalty := errorCount / minutes
    let net := max 0 (gross - penalty)
    let accuracy := (correct_char_count : ℚ) / (typed_char_count : ℚ) * 100
    (gross, net, accuracy)

/-- C1: `calculate_wpm` agrees with the spec's reference definition on every
input with `correct ≤ typed` (the spec's data-model invariant), and the spec's
scenario `correct=45, typed=50, elapsed=30s` yields gross 20, net 10,
accuracy 90. -/
theorem calculate_wpm_eq_spec (c t : ℕ) (s : ℚ) (h : c ≤ t) :
    calculate_wpm c t s = metrics_spec c t s ∧
    calculate_wpm 45 50 30 = (20, 10, 90) := by
  constructor
  · unfold calculate_wpm metrics_spec STANDARD_WORD_LENGTH
    split
    · rfl
    · have hcast : ((t - c : ℕ) : ℚ) = (t : ℚ) - (c : ℚ) := by
        exact Nat.cast_sub h
      simp only [hcast, max_comm]
  · norm_num [calculate_wpm, STANDARD_WORD_LENGTH]

/-- Witness for `calculate_wpm_eq_spec` at `c = 45`, `t = 50`, `s = 30`. -/
theorem calculate_wpm_eq_spec_witness :
    45 ≤ 50 ∧
    (calculate_wpm 45 50 30 = metrics_spec 45 50 30 ∧
      calculate_wpm 45 50 30 = (20, 10, 90)) :=
  ⟨by norm_num, calculate_wpm_eq_spec 45 50 30 (by norm_num)⟩

/-- C8: for every input with `correct ≤ typed` and `time ≥ 0`, the net WPM
returned by `calculate_wpm` is at most the gross WPM it returns. -/
theorem net_wpm_le_gross_wpm (c t : ℕ) (s : ℚ) (hc : c ≤ t) (hs : 0 ≤ s) :
    (calculate_wpm c t s).2.1 ≤ (calculate_wpm c t s).1 := by
  unfold calculate_wpm STANDARD_WORD_LENGTH
  split
  · simp
  · rename_i hcond
    push_neg at hcond
    have hmin : (0 : ℚ) < s / 60 := by
      have : (1 : ℚ)/100 ≤ s := hcond.1
      positivity

    have hgross : (0 : ℚ) ≤ ((t : ℚ) / 5) / (s / 60) := by positivity
    have hpen : (0 : ℚ) ≤ ((t - c : ℕ) : ℚ) / (s / 60) := by positivity
    simp only
    rw [max_le_iff]
    constructor
    · linarith
    · exact hgross

/-- Witness for `net_wpm_le_gross_wpm` at `c = 45`, `t = 50`, `s = 30`. -/
theorem net_wpm_le_gross_wpm_witness :
    45 ≤ 50 ∧ (0 : ℚ) ≤ 30 ∧
    (calculate_wpm 45 50 30).2.1 ≤ (calculate_wpm 45 50 30).1 :=
  ⟨by norm_num, by norm_num, net_wpm_le_gross_wpm 45 50 30 (by norm_num) (by norm_num)⟩

/-- The session state of `GameState` from `game.rs` lines 32-60.  The
`Instant`-valued fields, the stored `config` and the two loaded corpora are
elided: no keystroke transition reads or writes them. -/
structure GameState where
  words_to_type : List (List Char)
  current_word_index : ℕ
  current_char_index : ℕ
  user_input : List Char
  errors : List Char
  correct_chars_total : ℕ
  typed_chars_total : ℕ
  game_over : Bool
deriving DecidableEq, Repr

/-- `GameState::new` from `game.rs` lines 64-85 (the session-relevant fields). -/
def GameState.new (words_for_current_game : List (List Char)) : GameState :=
  { words_to_type := words_for_current_game
    current_word_index := 0
    current_char_index := 0
    user_input := []
    errors := []
    correct_chars_total := 0
    typed_chars_total := 0
    game_over := false }

/-- The key events the active game loop distinguishes (`game.rs` lines 349-389):
Escape, Backspace, a character key, and everything else (ignored). -/
inductive Key
  | esc
  | backspace
  | char (c : Char)
  | other
deriving DecidableEq, Repr

/-- The `KeyCode::Char(c)` arm of the event match, `game.rs` lines 363-387.
`typed_chars_total` is incremented first; if all words are already completed
the handler returns (`continue`) without touching the word list; otherwise the
current word is read and the match/advance/mismatch cases apply.
`List.getD _ (Char.ofNat 0)` mirrors `chars().nth(..).unwrap_or_default()`. -/
def handle_char (s : GameState) (c : Char) : GameState :=
  let s := { s with typed_chars_total := s.typed_chars_total + 1 }
  if s.words_to_type.length ≤ s.current_word_index then
    s
  else
    let target_word := s.words_to_type.getD s.current_word_index []
    if s.current_char_index < target_word.length then
      if c = target_word.getD s.current_char_index (Char.ofNat 0) ∧ s.errors = [] then
        { s with user_input := s.user_input ++ [c]
                 current_char_index := s.current_char_index + 1
                 correct_chars_total := s.correct_chars_total + 1 }
      else
        { s with errors := s.errors ++ [c] }
    else
      if c = ' ' ∧ s.errors = [] then
        { s with current_word_index := s.current_word_index + 1
                 current_char_index := 0
                 user_input := []
                 correct_chars_total := s.correct_chars_total + 1 }
      else
        { s with errors := s.errors ++ [c] }

/-- One keystroke transition of the active game loop (`game.rs` lines 347-389).
When `game_over` is set the loop no longer routes keys through this match (a key
press merely leaves the loop), so the state is returned unchanged. -/
def step (s : GameState) (k : Key) : GameState :=
  if s.game_over then s
  else
    match k with
    | Key.esc => { s with game_over := true }
    | Key.backspace =>
        if s.errors ≠ [] then
          { s with errors := s.errors.dropLast }
        else if s.user_input ≠ [] then
          { s with user_input := s.user_input.dropLast
                   current_char_index := s.current_char_index - 1 }
        else s
    | Key.char c => handle_char s c
    | Key.other => s

/-- The session state reached from the initial state by a sequence of keys. -/
def run_keys (words : List (List Char)) (keys : List Key) : GameState :=
  keys.foldl step (GameState.new words)

theorem handle_char_typed (s : GameState) (c : Char) :
    (handle_char s c).typed_chars_total = s.typed_chars_total + 1 := by
  simp only [handle_char]
  repeat' split
  all_goals rfl

theorem handle_char_correct_bounds (s : GameState) (c : Char) :
    s.correct_chars_total ≤ (handle_char s c).correct_chars_total ∧
    (handle_char s c).correct_chars_total ≤ s.correct_chars_total + 1 := by
  simp only [handle_char]
  repeat' split
  all_goals simp

theorem step_counters_mono (s : GameState) (k : Key) :
    s.correct_chars_total ≤ (step s k).correct_chars_total ∧
    s.typed_chars_total ≤ (step s k).typed_chars_total := by
  cases k with
  | esc =>
      simp only [step]
      split
      · simp
      · simp
  | backspace =>
      simp only [step]
      repeat' split
      all_goals simp
  | char c =>
      have h1 := handle_char_typed s c
      have h2 := handle_char_correct_bounds s c
      simp only [step]
      split
      · simp
      · exact ⟨h2.1, by omega⟩
  | other =>
      simp only [step]
      split
      · simp
      · simp

theorem step_correct_le_typed (s : GameState) (k : Key)
    (h : s.correct_chars_total ≤ s.typed_chars_total) :
    (step s k).correct_chars_total ≤ (step s k).typed_chars_total := by
  cases k with
  | esc =>
      simp only [step]
      split
      · exact h
      · simpa using h
  | backspace =>
      simp only [step]
      repeat' split
      all_goals simpa using h
  | char c =>
      have h1 := handle_char_typed s c
      have h2 := handle_char_correct_bounds s c
      simp only [step]
      split
      · exact h
      · omega
  | other =>
      simp only [step]
      split
      · exact h
      · exact h

theorem foldl_step_correct_le_typed (keys : List Key) (s : GameState)
    (h : s.correct_chars_total ≤ s.typed_chars_total) :
    (keys.foldl step s).correct_chars_total ≤ (keys.foldl step s).typed_chars_total := by
  induction keys generalizing s with
  | nil => exact h
  | cons k ks ih => exact ih (step s k) (step_correct_le_typed s k h)

/-- C2: every state reachable from the initial `GameState` by keystroke
transitions satisfies `correct_chars_total ≤ typed_chars_total`, and no single
transition ever decreases either counter. -/
theorem reachable_counter_invariant :
    (∀ (words : List (List Char)) (keys : List Key),
        (run_keys words keys).correct_chars_total ≤ (run_keys words keys).typed_chars_total) ∧
    (∀ (s : GameState) (k : Key),
        s.correct_chars_total ≤ (step s k).correct_chars_total ∧
        s.typed_chars_total ≤ (step s k).typed_chars_total) := by
  constructor
  · intro words keys
    exact foldl_step_correct_le_typed keys (GameState.new words) (by simp [GameState.new])
  · exact step_counters_mono

/-- C3: with the current word in range, no pending errors, the cursor inside
the current word, and the typed character equal to the expected one, the
character-key transition appends the character to `user_input`, increments
`current_char_index`, `correct_chars_total` and `typed_chars_total` by exactly
one each, and leaves `typed_chars_total - correct_chars_total` unchanged. -/
theorem correct_char_step (s : GameState) (c : Char)
    (hgo : s.game_over = false)
    (hw : s.current_word_index < s.words_to_type.length)
    (herr : s.errors = [])
    (hchar : s.current_char_index < (s.words_to_type.getD s.current_word_index []).length)
    (hmatch : c = (s.words_to_type.getD s.current_word_index []).getD s.current_char_index
      (Char.ofNat 0)) :
    step s (Key.char c) =
      { s with user_input := s.user_input ++ [c]
               current_char_index := s.current_char_index + 1
               correct_chars_total := s.correct_chars_total + 1
               typed_chars_total := s.typed_chars_total + 1 } ∧
    (step s (Key.char c)).typed_chars_total - (step s (Key.char c)).correct_chars_total
      = s.typed_chars_total - s.correct_chars_total := by
  have hstep : step s (Key.char c) = handle_char s c := by
    simp [step, hgo]
  have hhc : handle_char s c =
      { s with user_input := s.user_input ++ [c]
               current_char_index := s.current_char_index + 1
               correct_chars_total := s.correct_chars_total + 1
               typed_chars_total := s.typed_chars_total + 1 } := by
    simp only [handle_char]
    rw [if_neg (by omega), if_pos hchar, if_pos ⟨hmatch, herr⟩]
  refine ⟨hstep.trans hhc, ?_⟩
  rw [hstep, hhc]
  show s.typed_chars_total + 1 - (s.correct_chars_total + 1)
    = s.typed_chars_total - s.correct_chars_total
  omega

/-- Fresh session on the single word "ab", used to exercise `correct_char_step`. -/
def demo_state : GameState := GameState.new [['a', 'b']]

/-- Witness for `correct_char_step` on a fresh session over the word "ab",
typing the matching character 'a'. -/
theorem correct_char_step_witness :
    demo_state.game_over = false ∧
    demo_state.current_word_index < demo_state.words_to_type.length ∧
    demo_state.errors = [] ∧
    demo_state.current_char_index <
      (demo_state.words_to_type.getD demo_state.current_word_index []).length ∧
    'a' = (demo_state.words_to_type.getD demo_state.current_word_index []).getD
      demo_state.current_char_index (Char.ofNat 0) ∧
    (step demo_state (Key.char 'a') =
      { demo_state with user_input := demo_state.user_input ++ ['a']
                        current_char_index := demo_state.current_char_index + 1
                        correct_chars_total := demo_state.correct_chars_total + 1
                        typed_chars_total := demo_state.typed_chars_total + 1 } ∧
     (step demo_state (Key.char 'a')).typed_chars_total
        - (step demo_state (Key.char 'a')).correct_chars_total
       = demo_state.typed_chars_total - demo_state.correct_chars_total) :=
  ⟨by decide, by decide, by decide, by decide, by decide,
   correct_char_step demo_state 'a' (by decide) (by decide) (by decide) (by decide) (by decide)⟩

/-- The state after typing the one word "a" and its separating space: every
word is completed, `current_word_index = 1 = ` number of words. -/
def past_end_state : GameState := run_keys [['a']] [Key.char 'a', Key.char ' ']

/-- C4 counterexample: at a reachable state with all words completed, a
character key is not a pure no-op — `typed_chars_total` is incremented before
the past-the-end check (`game.rs` line 365 precedes the `continue`), so the
state does change. -/
theorem char_past_end_not_discarded :
    past_end_state.words_to_type.length ≤ past_end_state.current_word_index ∧
    step past_end_state (Key.char 'x') ≠ past_end_state ∧
    (step past_end_state (Key.char 'x')).typed_chars_total
      = past_end_state.typed_chars_total + 1 := by
  decide

/-- C4 amended: past the last word, a character key increments
`typed_chars_total` by exactly one and changes nothing else; the word list is
never indexed (the embedded handler returns before any list access, mirroring
the `continue` that precedes the indexing in the source). -/
theorem char_past_end_counts_only (s : GameState) (c : Char)
    (hgo : s.game_over = false)
    (hw : s.words_to_type.length ≤ s.current_word_index) :
    step s (Key.char c) = { s with typed_chars_total := s.typed_chars_total + 1 } := by
  have hstep : step s (Key.char c) = handle_char s c := by
    simp [step, hgo]
  rw [hstep]
  simp only [handle_char]
  rw [if_pos hw]

/-- Witness for `char_past_end_counts_only` at the completed-session state. -/
theorem char_past_end_counts_only_witness :
    past_end_state.game_over = false ∧
    past_end_state.words_to_type.length ≤ past_end_state.current_word_index ∧
    step past_end_state (Key.char 'x')
      = { past_end_state with typed_chars_total := past_end_state.typed_chars_total + 1 } :=
  ⟨by decide, by decide, char_past_end_counts_only past_end_state 'x' (by decide) (by decide)⟩

/-- C5: Backspace removes the last pending error when there is one, touching
nothing else; otherwise, with a non-empty matched prefix, it removes the last
matched character and decrements `current_char_index` by one; in every case it
leaves both counters and `current_word_index` unchanged.  The hypothesis
`current_char_index = user_input.length` is the data model's tie between the
cursor and the confirmed-correct prefix. -/
theorem backspace_step (s : GameState)
    (hgo : s.game_over = false)
    (hinv : s.current_char_index = s.user_input.length) :
    (s.errors ≠ [] → step s Key.backspace = { s with errors := s.errors.dropLast }) ∧
    (s.errors = [] → s.user_input ≠ [] →
      step s Key.backspace =
        { s with user_input := s.user_input.dropLast
                 current_char_index := s.current_char_index - 1 } ∧
      (step s Key.backspace).current_char_index + 1 = s.current_char_index) ∧
    (step s Key.backspace).correct_chars_total = s.correct_chars_total ∧
    (step s Key.backspace).typed_chars_total = s.typed_chars_total ∧
    (step s Key.backspace).current_word_index = s.current_word_index := by
  have hbase : step s Key.backspace =
      (if s.errors ≠ [] then { s with errors := s.errors.dropLast }
       else if s.user_input ≠ [] then
         { s with user_input := s.user_input.dropLast
                  current_char_index := s.current_char_index - 1 }
       else s) := by
    simp [step, hgo]
  refine ⟨?_, ?_, ?_⟩
  · intro herr
    rw [hbase, if_pos herr]
  · intro herr hinp
    have h1 : ¬ s.errors ≠ [] := by simp [herr]
    have h2 : 0 < s.user_input.length := List.length_pos.mpr hinp
    constructor
    · rw [hbase, if_neg h1, if_pos hinp]
    · rw [hbase, if_neg h1, if_pos hinp]
      show s.current_char_index - 1 + 1 = s.current_char_index
      omega
  · rw [hbase]
    repeat' split
    all_goals exact ⟨rfl, rfl, rfl⟩

/-- The state after typing 'a' against the word "ab": matched prefix "a",
cursor at 1, no pending errors. -/
def backspace_demo_state : GameState := run_keys [['a', 'b']] [Key.char 'a']

/-- Witness for `backspace_step` at the state with matched prefix "a". -/
theorem backspace_step_witness :
    backspace_demo_state.game_over = false ∧
    backspace_demo_state.current_char_index = backspace_demo_state.user_input.length ∧
    ((backspace_demo_state.errors ≠ [] →
        step backspace_demo_state Key.backspace
          = { backspace_demo_state with errors := backspace_demo_state.errors.dropLast }) ∧
     (backspace_demo_state.errors = [] → backspace_demo_state.user_input ≠ [] →
        step backspace_demo_state Key.backspace =
          { backspace_demo_state with
              user_input := backspace_demo_state.user_input.dropLast
              current_char_index := backspace_demo_state.current_char_index - 1 } ∧
        (step backspace_demo_state Key.backspace).current_char_index + 1
          = backspace_demo_state.current_char_index) ∧
     (step backspace_demo_state Key.backspace).correct_chars_total
        = backspace_demo_state.correct_chars_total ∧
     (step backspace_demo_state Key.backspace).typed_chars_total
        = backspace_demo_state.typed_chars_total ∧
     (step backspace_demo_state Key.backspace).current_word_index
        = backspace_demo_state.current_word_index) :=
  ⟨by decide, by decide, backspace_step backspace_demo_state (by decide) (by decide)⟩

/-- `SliceRandom::choose`: picks a uniformly random element, `None` on an
empty slice.  The generator draw is modelled by the index parameter `r`. -/
def choose {α : Type} (l : List α) (r : ℕ) : Option α :=
  l.get? (r % l.length)

/-- `SliceRandom::choose_multiple`: samples `min amount len` elements without
replacement in random order.  Modelled as a prefix of the list rotated by the
generator draw `r`: the sample has `min amount len` elements taken at pairwise
distinct positions. -/
def choose_multiple {α : Type} (l : List α) (amount : ℕ) (r : ℕ) : List α :=
  (l.rotate r).take amount

/-- `str::split_whitespace`: the maximal runs of non-whitespace characters, in
order (splitting on every whitespace character and discarding empties). -/
def split_whitespace (s : List Char) : List (List Char) :=
  (List.splitOnP (fun c => c.isWhitespace) s).filter (fun w => decide (w ≠ []))

/-- The difficulty filter of `get_words_for_game` (`game.rs` lines 129-133):
Easy keeps words of length at most 5, Medium at most 8, Hard keeps all. -/
def filter_by_difficulty (d : Difficulty) (all_words : List (List Char)) :
    List (List Char) :=
  match d with
  | Difficulty.Easy => all_words.filter (fun w => decide (w.length ≤ 5))
  | Difficulty.Medium => all_words.filter (fun w => decide (w.length ≤ 8))
  | Difficulty.Hard => all_words

/-- The requested sample size of `get_words_for_game` (`game.rs` lines
123-127): 300 in Time mode, the configured word count (default 30) in Words
mode.  (The Quote arm of the source `match` is `unreachable!`.) -/
def effective_count (config : GameConfig) : ℕ :=
  match config.game_type with
  | GameType.Time => 300
  | GameType.Words => config.word_count.getD 30
  | GameType.Quote => 0

/-- The final sampling step of `get_words_for_game` (`game.rs` lines 145-150):
clamp the requested count to the pool size, fail if nothing is selectable,
otherwise sample without replacement. -/
def sample_words (count : ℕ) (pool : List (List Char)) (r : ℕ) :
    Except String (List (List Char)) :=
  let num_to_choose := if pool.length < count then pool.length else count
  if num_to_choose = 0 then
    Except.error "No words could be selected for the game with current criteria."
  else
    Except.ok (choose_multiple pool num_to_choose r)

/-- `get_words_for_game` from `game.rs` lines 104-153.  Quote mode picks one
quote and splits it on whitespace; Time/Words modes filter by difficulty, fall
back to the unfiltered corpus when the filter empties the pool, then sample. -/
def get_words_for_game (config : GameConfig) (all_words : List (List Char))
    (all_quotes : List Quote) (r : ℕ) : Except String (List (List Char)) :=
  match config.game_type with
  | GameType.Quote =>
      if all_quotes = [] then
        Except.error "No quotes available for Quote mode. Please check data quotes file."
      else
        match choose all_quotes r with
        | none => Except.error "Failed to choose a quote, though list was not empty."
        | some chosen_quote => Except.ok (split_whitespace chosen_quote.text)
  | _ =>
      if all_words = [] then
        Except.error "No words available for selected game mode. Please check data words file."
      else
        let count := effective_count config
        let filtered_words := filter_by_difficulty config.difficulty all_words
        if filtered_words = [] then
          if all_words = [] then
            Except.error "No words available after difficulty filtering and fallback."
          else
            sample_words count all_words r
        else
          sample_words count filtered_words r

/-- The pool actually sampled in Time/Words mode: the difficulty-filtered
corpus, or the whole corpus when the filter leaves nothing. -/
def sampling_pool (config : GameConfig) (all_words : List (List Char)) :
    List (List Char) :=
  let f := filter_by_difficulty config.difficulty all_words
  if f = [] then all_words else f

/-- A Quote-mode configuration (as produced by the configuration menu). -/
def quote_cfg : GameConfig :=
  { game_type := GameType.Quote
    time_seconds := none
    word_count := none
    difficulty := Difficulty.Medium }

/-- C6 counterexample: on the non-empty corpus holding one quote whose text is
empty, Quote-mode selection succeeds with the EMPTY token sequence, refuting
the claim that every non-empty corpus yields a non-empty token sequence. -/
theorem quote_mode_empty_tokens :
    ([Quote.mk [] []] : List Quote) ≠ [] ∧
    get_words_for_game quote_cfg [] [Quote.mk [] []] 0 = Except.ok [] := by
  constructor
  · simp
  · rfl

/-- C6 amended: Quote-mode selection fails exactly when the quote corpus is
empty, and on a non-empty corpus it returns the whitespace split of some quote
of the corpus (which is empty exactly when that quote's text contains no
non-whitespace character). -/
theorem quote_mode_selection (config : GameConfig) (ws : List (List Char))
    (qs : List Quote) (r : ℕ) (hq : config.game_type = GameType.Quote) :
    ((∃ e, get_words_for_game config ws qs r = Except.error e) ↔ qs = []) ∧
    (qs ≠ [] → ∃ q ∈ qs,
      get_words_for_game config ws qs r = Except.ok (split_whitespace q.text)) := by
  have hne : qs ≠ [] → ∃ q ∈ qs,
      get_words_for_game config ws qs r = Except.ok (split_whitespace q.text) := by
    intro h
    have hlen : 0 < qs.length := List.length_pos.mpr h
    have hmod : r % qs.length < qs.length := Nat.mod_lt r hlen
    refine ⟨qs.get ⟨r % qs.length, hmod⟩, List.get_mem qs _ hmod, ?_⟩
    simp only [get_words_for_game, hq, if_neg h, choose]
    rw [List.get?_eq_get hmod]
  constructor
  · constructor
    · intro ⟨e, he⟩
      by_contra hcon
      obtain ⟨q, _, hok⟩ := hne hcon
      rw [he] at hok
      exact Except.noConfusion hok
    · intro h
      subst h
      exact ⟨"No quotes available for Quote mode. Please check data quotes file.",
        by simp [get_words_for_game, hq]⟩
  · exact hne

/-- Witness for `quote_mode_selection` on a one-quote corpus. -/
theorem quote_mode_selection_witness :
    quote_cfg.game_type = GameType.Quote ∧
    ((∃ e, get_words_for_game quote_cfg [] [Quote.mk "hello world".toList []] 0
        = Except.error e) ↔ ([Quote.mk "hello world".toList []] : List Quote) = []) ∧
    (([Quote.mk "hello world".toList []] : List Quote) ≠ [] →
      ∃ q ∈ ([Quote.mk "hello world".toList []] : List Quote),
        get_words_for_game quote_cfg [] [Quote.mk "hello world".toList []] 0
          = Except.ok (split_whitespace q.text)) :=
  ⟨rfl, quote_mode_selection quote_cfg [] [Quote.mk "hello world".toList []] 0 rfl⟩

theorem sample_words_ok (count : ℕ) (pool : List (List Char)) (r : ℕ)
    (hc : 0 < count) (hp : pool ≠ []) :
    sample_words count pool r
      = Except.ok (choose_multiple pool (min count pool.length) r) ∧
    (choose_multiple pool (min count pool.length) r).length = min count pool.length ∧
    List.Sublist (choose_multiple pool (min count pool.length) r) (pool.rotate r) ∧
    List.Perm (pool.rotate r) pool := by
  have hlen : 0 < pool.length := List.length_pos.mpr hp
  have hnum : (if pool.length < count then pool.length else count)
      = min count pool.length := by
    split <;> omega
  refine ⟨?_, ?_, ?_, ?_⟩
  · simp only [sample_words, hnum]
    rw [if_neg (by omega)]
  · simp only [choose_multiple, List.length_take, List.length_rotate]
    omega
  · exact List.take_sublist _ _
  · exact List.rotate_perm pool r

/-- C7: in Time/Words mode on a non-empty corpus with a positive requested
count, selection succeeds (in particular the empty-filter fallback is not an
error); the sampled list is drawn without replacement from the sampling pool —
the difficulty-filtered corpus, or the whole corpus when the filter leaves
nothing — and has exactly `min (requested count) (pool size)` elements. -/
theorem word_mode_selection (config : GameConfig) (ws : List (List Char))
    (qs : List Quote) (r : ℕ)
    (hmode : config.game_type ≠ GameType.Quote)
    (hws : ws ≠ [])
    (hcount : 0 < effective_count config) :
    get_words_for_game config ws qs r
      = Except.ok (choose_multiple (sampling_pool config ws)
          (min (effective_count config) (sampling_pool config ws).length) r) ∧
    (choose_multiple (sampling_pool config ws)
        (min (effective_count config) (sampling_pool config ws).length) r).length
      = min (effective_count config) (sampling_pool config ws).length ∧
    List.Sublist
      (choose_multiple (sampling_pool config ws)
        (min (effective_count config) (sampling_pool config ws).length) r)
      ((sampling_pool config ws).rotate r) ∧
    List.Perm ((sampling_pool config ws).rotate r) (sampling_pool config ws) := by
  by_cases hf : filter_by_difficulty config.difficulty ws = []
  · have hpool : sampling_pool config ws = ws := by
      simp [sampling_pool, hf]
    have h := sample_words_ok (effective_count config) ws r hcount hws
    rw [hpool]
    refine ⟨?_, h.2.1, h.2.2.1, h.2.2.2⟩
    rw [← h.1]
    cases hgt : config.game_type with
    | Quote => exact absurd hgt hmode
    | Time => simp [get_words_for_game, hgt, hf, hws]
    | Words => simp [get_words_for_game, hgt, hf, hws]
  · have hpool : sampling_pool config ws
        = filter_by_difficulty config.difficulty ws := by
      simp [sampling_pool, hf]
    have h := sample_words_ok (effective_count config)
      (filter_by_difficulty config.difficulty ws) r hcount hf
    rw [hpool]
    refine ⟨?_, h.2.1, h.2.2.1, h.2.2.2⟩
    rw [← h.1]
    cases hgt : config.game_type with
    | Quote => exact absurd hgt hmode
    | Time => simp [get_words_for_game, hgt, hf, hws]
    | Words => simp [get_words_for_game, hgt, hf, hws]

/-- The four-word corpus of the spec's difficulty-filter scenario. -/
def scenario_corpus : List (List Char) :=
  ["cat".toList, "banana".toList, "dog".toList, "elephant".toList]

/-- A Words-mode configuration requesting 10 words at Hard difficulty. -/
def words10_cfg : GameConfig :=
  { game_type := GameType.Words
    time_seconds := none
    word_count := some 10
    difficulty := Difficulty.Hard }

/-- Witness for `word_mode_selection`: on the spec's four-word corpus, Easy
difficulty filters the pool to exactly cat and dog, and a Words-mode request
for 10 words over the four-word (Hard) pool returns exactly 4 tokens. -/
theorem word_mode_selection_witness :
    filter_by_difficulty Difficulty.Easy scenario_corpus = ["cat".toList, "dog".toList] ∧
    words10_cfg.game_type ≠ GameType.Quote ∧
    scenario_corpus ≠ [] ∧
    0 < effective_count words10_cfg ∧
    (get_words_for_game words10_cfg scenario_corpus [] 0
        = Except.ok (choose_multiple (sampling_pool words10_cfg scenario_corpus)
            (min (effective_count words10_cfg)
              (sampling_pool words10_cfg scenario_corpus).length) 0) ∧
      (choose_multiple (sampling_pool words10_cfg scenario_corpus)
          (min (effective_count words10_cfg)
            (sampling_pool words10_cfg scenario_corpus).length) 0).length
        = min (effective_count words10_cfg)
            (sampling_pool words10_cfg scenario_corpus).length ∧
      List.Sublist
        (choose_multiple (sampling_pool words10_cfg scenario_corpus)
          (min (effective_count words10_cfg)
            (sampling_pool words10_cfg scenario_corpus).length) 0)
        ((sampling_pool words10_cfg scenario_corpus).rotate 0) ∧
      List.Perm ((sampling_pool words10_cfg scenario_corpus).rotate 0)
        (sampling_pool words10_cfg scenario_corpus)) ∧
    min (effective_count words10_cfg) (sampling_pool words10_cfg scenario_corpus).length
      = 4 :=
  ⟨by decide, by decide, by decide, by decide,
   word_mode_selection words10_cfg scenario_corpus [] 0 (by decide) (by decide) (by decide),
   by decide⟩

/-- The terminal-surface operations `run_game` performs around word selection
(`game.rs` lines 260-276). -/
inductive TermAction
  | enableRaw
  | clearScreen
  | hideCursor
  | showCursor
  | disableRaw
deriving DecidableEq, Repr

/-- The setup phase of `run_game` (`game.rs` lines 260-276): enable raw mode,
clear the screen and hide the cursor, then select the words.  A selection
error is propagated by `?` with no further terminal action; an unexpectedly
empty selection shows the cursor and disables raw mode before erroring; a
non-empty selection constructs the initial `GameState`.  The returned list is
the sequence of terminal actions performed on that path. -/
def run_game_setup (config : GameConfig) (all_words : List (List Char))
    (all_quotes : List Quote) (r : ℕ) :
    List TermAction × Except String GameState :=
  let acts := [TermAction.enableRaw, TermAction.clearScreen, TermAction.hideCursor]
  match get_words_for_game config all_words all_quotes r with
  | Except.error e => (acts, Except.error e)
  | Except.ok words_for_game =>
      if words_for_game = [] then
        (acts ++ [TermAction.showCursor, TermAction.disableRaw],
         Except.error "No words were selected for the game, the selected list is empty.")
      else
        (acts, Except.ok (GameState.new words_for_game))

/-- C9 failing input evaluated: calling `run_game` in Quote mode with an empty
quote corpus makes word selection fail after raw mode is enabled and the
cursor hidden, and the error is propagated with neither `cursor::Show` nor
`disable_raw_mode` on that path — the restoration the design document requires
on every error path is missing. -/
theorem run_game_setup_missing_restore :
    (run_game_setup quote_cfg [] [] 0).2
      = Except.error "No quotes available for Quote mode. Please check data quotes file." ∧
    TermAction.enableRaw ∈ (run_game_setup quote_cfg [] [] 0).1 ∧
    TermAction.hideCursor ∈ (run_game_setup quote_cfg [] [] 0).1 ∧
    TermAction.disableRaw ∉ (run_game_setup quote_cfg [] [] 0).1 ∧
    TermAction.showCursor ∉ (run_game_setup quote_cfg [] [] 0).1 := by
  refine ⟨rfl, ?_, ?_, ?_, ?_⟩ <;> decide

/-- The end-condition check of the game loop in Words mode (`game.rs` lines
315-318): the game ends when `current_word_index` reaches the configured word
count and the word list is non-empty. -/
def words_end_check (word_count : ℕ) (s : GameState) : GameState :=
  if word_count ≤ s.current_word_index ∧ s.words_to_type ≠ [] then
    { s with game_over := true }
  else s

/-- One iteration of the Words-mode game loop: evaluate the end condition,
then process the pending key (which `step` ignores once the game is over). -/
def words_tick (word_count : ℕ) (s : GameState) (k : Key) : GameState :=
  step (words_end_check word_count s) k

/-- A Words-mode session: the initial state driven by a sequence of keys. -/
def run_words_session (word_count : ℕ) (words : List (List Char))
    (keys : List Key) : GameState :=
  keys.foldl (words_tick word_count) (GameState.new words)

theorem step_words_to_type (s : GameState) (k : Key) :
    (step s k).words_to_type = s.words_to_type := by
  cases k with
  | esc =>
      simp only [step]
      split <;> rfl
  | backspace =>
      simp only [step]
      repeat' split
      all_goals rfl
  | char c =>
      simp only [step]
      split
      · rfl
      · simp only [handle_char]
        repeat' split
        all_goals rfl
  | other =>
      simp only [step]
      split <;> rfl

theorem step_word_index_le (s : GameState) (k : Key)
    (h : s.current_word_index ≤ s.words_to_type.length) :
    (step s k).current_word_index ≤ (step s k).words_to_type.length := by
  rw [step_words_to_type]
  cases k with
  | esc =>
      simp only [step]
      split <;> simpa using h
  | backspace =>
      simp only [step]
      repeat' split
      all_goals simpa using h
  | char c =>
      simp only [step]
      split
      · exact h
      · simp only [handle_char]
        split
        · simpa using h
        · rename_i hidx
          simp only [not_le] at hidx
          repeat' split
          all_goals simp
          all_goals omega
  | other =>
      simp only [step]
      split <;> exact h

theorem step_game_over_of_not_esc (s : GameState) (k : Key) (hk : k ≠ Key.esc)
    (h : s.game_over = false) :
    (step s k).game_over = false := by
  cases k with
  | esc => exact absurd rfl hk
  | backspace =>
      simp only [step]
      repeat' split
      all_goals simpa using h
  | char c =>
      simp only [step]
      split
      · exact h
      · simp only [handle_char]
        repeat' split
        all_goals simpa using h
  | other =>
      simp only [step]
      split <;> exact h

theorem words_end_check_skip (word_count : ℕ) (s : GameState)
    (h : ¬ word_count ≤ s.current_word_index) :
    words_end_check word_count s = s := by
  simp only [words_end_check]
  rw [if_neg]
  intro hc
  exact h hc.1

theorem foldl_words_tick_invariant (word_count : ℕ) (keys : List Key)
    (s : GameState)
    (hshort : s.words_to_type.length < word_count)
    (hidx : s.current_word_index ≤ s.words_to_type.length)
    (hgo : s.game_over = false)
    (hnoesc : Key.esc ∉ keys) :
    (keys.foldl (words_tick word_count) s).words_to_type = s.words_to_type ∧
    (keys.foldl (words_tick word_count) s).current_word_index
      ≤ s.words_to_type.length ∧
    (keys.foldl (words_tick word_count) s).game_over = false := by
  induction keys generalizing s with
  | nil => exact ⟨rfl, hidx, hgo⟩
  | cons k ks ih =>
      have hk : k ≠ Key.esc := fun h => hnoesc (h ▸ List.mem_cons_self k ks)
      have hks : Key.esc ∉ ks := fun h => hnoesc (List.mem_cons_of_mem k h)
      have hcheck : words_end_check word_count s = s :=
        words_end_check_skip word_count s (by omega)
      have hstep_words := step_words_to_type s k
      have hstep_idx := step_word_index_le s k hidx
      have hstep_go := step_game_over_of_not_esc s k hk hgo
      have h1 : words_tick word_count s k = step s k := by
        rw [words_tick, hcheck]
      rw [List.foldl_cons, h1]
      have := ih (step s k) (by rw [hstep_words]; exact hshort)
        hstep_idx hstep_go hks
      rw [hstep_words] at this
      exact this

/-- C10: in Words mode with fewer selected words than the configured word
count, no keystroke sequence free of Escape ever ends the session:
`current_word_index` never exceeds the length of the word list, so the
end condition `word_count ≤ current_word_index` never fires and `game_over`
stays false. -/
theorem words_mode_short_list_never_ends (word_count : ℕ)
    (words : List (List Char)) (keys : List Key)
    (hshort : words.length < word_count)
    (hnoesc : Key.esc ∉ keys) :
    (run_words_session word_count words keys).game_over = false ∧
    (run_words_session word_count words keys).current_word_index
      ≤ (run_words_session word_count words keys).words_to_type.length ∧
    ¬ word_count ≤ (run_words_session word_count words keys).current_word_index := by
  have h := foldl_words_tick_invariant word_count keys (GameState.new words)
    (by simpa [GameState.new] using hshort) (by simp [GameState.new])
    (by simp [GameState.new]) hnoesc
  unfold run_words_session
  refine ⟨h.2.2, ?_, ?_⟩
  · rw [h.1]
    exact h.2.1
  · have h21 := h.2.1
    have hlen : (GameState.new words).words_to_type.length = words.length := rfl
    omega

/-- Witness for `words_mode_short_list_never_ends`: one selected word, a
configured count of two, and the keys that type the word and its separator. -/
theorem words_mode_short_list_never_ends_witness :
    (1 : ℕ) < 2 ∧
    Key.esc ∉ [Key.char 'a', Key.char ' ', Key.char ' '] ∧
    ((run_words_session 2 [['a']] [Key.char 'a', Key.char ' ', Key.char ' ']).game_over
        = false ∧
     (run_words_session 2 [['a']]
        [Key.char 'a', Key.char ' ', Key.char ' ']).current_word_index
       ≤ (run_words_session 2 [['a']]
            [Key.char 'a', Key.char ' ', Key.char ' ']).words_to_type.length ∧
     ¬ 2 ≤ (run_words_session 2 [['a']]
              [Key.char 'a', Key.char ' ', Key.char ' ']).current_word_index) :=
  ⟨by decide, by decide,
   words_mode_short_list_never_ends 2 [['a']]
     [Key.char 'a', Key.char ' ', Key.char ' '] (by decide) (by decide)⟩

end MonkMinal
